import Mathlib

/-
Verification of the comment-search subsystem of the remark repository.

The Go sources under verification are:
  * backend/app/store/search/buffered_engine.go  (buffered engine: queue,
    indexer worker, flush barrier, write-ahead log, Init, validateSortField)
  * the elastic back end (parseSecret, newElasticService, IndexDocument, Delete)
  * the bleve back end (analyzerMapping, newBleve, convertBleveSerp, Search)

Pure data and control flow is embedded shallowly: Go slices/deques become
Lean lists, the back end and the filesystem become explicit state threaded
through the functions, channels become recorded signal values.  Go `map`
values become association lists (Go map iteration order is unspecified; a
comment marks each spot where that matters).
-/

set_option autoImplicit false

namespace Search

/-- Modelled from the spec: `DocumentComment` (the indexable projection of a
comment) is defined in a source file that is not part of src/; §3 of the spec
lists its fields: `ID`, `URL`, `Text`, `Username`, `Timestamp`.  `Timestamp`
is modelled by its encoded string form. -/
structure DocumentComment where
  ID : String
  URL : String
  Text : String
  Username : String
  Timestamp : String
  deriving DecidableEq, Repr

/-- Modelled from the spec: `TokenMatch \x7bStart, End\x7d` byte offsets (§3). -/
structure TokenMatch where
  Start : Nat
  End : Nat
  deriving DecidableEq, Repr

/-- Modelled from the spec: each `ResultDoc` carries `ID`, `PostURL` and an
optional ordered list of `TokenMatch` (§3). -/
structure ResultDoc where
  ID : String
  PostURL : String
  Matches : List TokenMatch
  deriving DecidableEq, Repr

/-- Modelled from the spec: `ResultPage` carries `Total` and `Documents` (§3). -/
structure ResultPage where
  Total : Nat
  Documents : List ResultDoc
  deriving DecidableEq, Repr

/-! ## JSON encoding of a document

`writeAheadLog` serializes each queued document with Go's `json.Marshal` and
appends a `0x00` sentinel.  The document type and its JSON tags are not under
src/, so the encoding is modelled from the spec (a self-describing byte
sequence, §3); the escaping below follows Go's `encoding/json` encoder
(quotes, backslashes, control characters, and the HTML characters that Go
escapes by default), which is what guarantees that the encoded record itself
never contains the `0x00` sentinel. -/

/-- The opening brace character of a JSON object. -/
def lbrace : Char := Char.ofNat 123

/-- The closing brace character of a JSON object. -/
def rbrace : Char := Char.ofNat 125

/-- Lower-case hexadecimal digit, as printed by Go's `%x`. -/
def hexDigitChar (n : Nat) : Char :=
  match n with
  | 0 => '0' | 1 => '1' | 2 => '2' | 3 => '3' | 4 => '4'
  | 5 => '5' | 6 => '6' | 7 => '7' | 8 => '8' | 9 => '9'
  | 10 => 'a' | 11 => 'b' | 12 => 'c' | 13 => 'd' | 14 => 'e'
  | _ => 'f'

/-- Escaping of one character inside a JSON string, following Go's
`encoding/json` encoder with its default HTML escaping. -/
def escapeChar (c : Char) : List Char :=
  if c = '"' then ['\\', '"']
  else if c = '\\' then ['\\', '\\']
  else if c = '\n' then ['\\', 'n']
  else if c = '\r' then ['\\', 'r']
  else if c = '\t' then ['\\', 't']
  else if c = '<' ∨ c = '>' ∨ c = '&' ∨ c.toNat < 32 then
    ['\\', 'u', '0', '0', hexDigitChar (c.toNat / 16), hexDigitChar (c.toNat % 16)]
  else [c]

/-- A JSON string literal: quote, escaped characters, quote. -/
def quoteJSON (s : String) : List Char :=
  '"' :: (s.data.map escapeChar).flatten ++ ['"']

/-- Modelled from the spec: `json.Marshal` of a `DocumentComment`; the field
keys are not visible in src/, the spec only requires a self-describing
encoding of the five fields. -/
def jsonMarshal (d : DocumentComment) : List Char :=
  [lbrace] ++ "\"id\":".data ++ quoteJSON d.ID
    ++ ",\"url\":".data ++ quoteJSON d.URL
    ++ ",\"text\":".data ++ quoteJSON d.Text
    ++ ",\"username\":".data ++ quoteJSON d.Username
    ++ ",\"time\":".data ++ quoteJSON d.Timestamp
    ++ [rbrace]

/-- The WAL record separator: a single null byte (`0x00`). -/
def sentinel : Char := Char.ofNat 0

/-- One write-ahead-log record: the encoded document followed by the `0x00`
sentinel, exactly as `writeAheadLog` emits it (`data = append(data, 0x0)`). -/
def walRecord (d : DocumentComment) : List Char :=
  jsonMarshal d ++ [sentinel]

/-! ## Buffered engine state -/

/-- An entry of `bufferedEngine.docQueue`: either a `*DocumentComment` or a
`*idxFlusher`.  A flusher is identified by a tag standing for its
single-shot `notifier` channel. -/
inductive QueueEntry where
  | doc (d : DocumentComment)
  | flusher (fid : Nat)
  deriving DecidableEq, Repr

/-- Behaviour of the underlying `searchEngine` for one `indexBatch` run:
whether `s.index.Batch(batch)` reports an error, and for which document IDs
`batch.Index(id, doc)` reports an error.  Both failure modes exist in the
bleve back end and are logged-and-swallowed by `indexBatch`. -/
structure BackendEnv where
  batchErr : Bool
  docErr : String → Bool

/-- The observable state of one `bufferedEngine` shard: the in-memory queue,
the documents durably committed to the back end (an `id -> document` map,
modelled as an association list with upsert semantics), and the values that
have been sent on flusher notifier channels (`none` models Go `nil`). -/
structure EngineState where
  docQueue : List QueueEntry
  committed : List (String × DocumentComment)
  flusherSent : List (Nat × Option String)
  deriving Repr

/-- Model of `bufferedEngine.IndexDocument`: under the queue lock, append the document
to the back of the queue, then send a non-force (`false`) signal on the
notifier.  The first argument models whether the notifier channel is still
open; sending on a closed channel panics in Go, modelled by `none`.  The
returned `Bool` is the value sent on the notifier. -/
def IndexDocument (notifierOpen : Bool) (st : EngineState) (d : DocumentComment) :
    Option (EngineState × Bool × Except String Unit) :=
  if notifierOpen then
    some ({ st with docQueue := st.docQueue ++ [QueueEntry.doc d] }, false, Except.ok ())
  else
    none

/-- The batch built by one `indexBatch` drain: every `DocumentComment` entry
whose `batch.Index(val.ID, val)` call succeeds, in queue order.  (On a
per-document error the Go code logs and executes `break`, which in Go only
leaves the `switch`, so the drain loop continues with the next entry.) -/
def batchDocs (env : BackendEnv) : List QueueEntry → List (String × DocumentComment)
  | [] => []
  | QueueEntry.doc d :: rest =>
      if env.docErr d.ID then batchDocs env rest else (d.ID, d) :: batchDocs env rest
  | QueueEntry.flusher _ :: rest => batchDocs env rest

/-- The flusher tags encountered by one `indexBatch` drain, in queue order. -/
def flusherIDs : List QueueEntry → List Nat
  | [] => []
  | QueueEntry.doc _ :: rest => flusherIDs rest
  | QueueEntry.flusher fid :: rest => fid :: flusherIDs rest

/-- Upsert into the committed map: re-indexing an existing ID replaces the
prior version, a new ID is appended. -/
def upsert (m : List (String × DocumentComment)) (k : String) (d : DocumentComment) :
    List (String × DocumentComment) :=
  match m with
  | [] => [(k, d)]
  | (k', d') :: rest => if k' = k then (k, d) :: rest else (k', d') :: upsert rest k d

/-- Committing a batch applies its upserts in order. -/
def applyBatch (m : List (String × DocumentComment))
    (batch : List (String × DocumentComment)) : List (String × DocumentComment) :=
  batch.foldl (fun acc p => upsert acc p.1 p.2) m

/-- Model of `bufferedEngine.indexBatch`: if the queue is empty, return at once.
Otherwise drain the whole queue into a fresh batch (documents via
`batch.Index`, flushers set aside via `defer`), commit the batch with
`s.index.Batch(batch)`, and only then let the deferred sends fire: every
drained flusher receives `nil` — unconditionally, whether or not the commit
(or any per-document add) failed, since the deferred closure sends the
literal `nil` and the commit error is only logged. -/
def indexBatch (env : BackendEnv) (st : EngineState) : EngineState :=
  if st.docQueue.isEmpty then st
  else
    { docQueue := []
      committed :=
        if env.batchErr then st.committed
        else applyBatch st.committed (batchDocs env st.docQueue)
      flusherSent :=
        st.flusherSent ++ (flusherIDs st.docQueue).map (fun fid => (fid, Option.none)) }

/-- Model of `bufferedEngine.Flush`: append a fresh `idxFlusher` sentinel to the queue,
send a force notifier, and let the worker run `indexBatch`; the caller then
blocks on the sentinel's channel, i.e. `Flush` returns the value recorded for
`fid` in `flusherSent`. -/
def Flush (env : BackendEnv) (st : EngineState) (fid : Nat) : EngineState :=
  indexBatch env { st with docQueue := st.docQueue ++ [QueueEntry.flusher fid] }

/-- One wake-up of `bufferedEngine.indexDocumentWorker`: a tick of the
`flushEvery` timer, or a notifier event carrying its `force` flag.  (A close
of the notifier channel is received as `force = false` with `cont = false`;
the body of that final iteration behaves exactly like `notify false`.) -/
inductive WorkerEvent where
  | tick
  | notify (force : Bool)
  deriving DecidableEq, Repr

/-- Outcome of one worker iteration: the resulting state, whether
`indexBatch` was invoked, and whether the timer was reset. -/
structure StepResult where
  state : EngineState
  ranBatch : Bool
  timerReset : Bool

/-- One iteration of the `select` loop in
`bufferedEngine.indexDocumentWorker`: a timer tick runs `indexBatch` and
resets the timer; a notifier event reads the queue length under the read
lock and runs `indexBatch` exactly when `force` is set or the queue holds at
least `flushCount` entries, otherwise the event is dropped. -/
def workerStep (env : BackendEnv) (flushCount : Nat) (ev : WorkerEvent)
    (st : EngineState) : StepResult :=
  match ev with
  | WorkerEvent.tick => ⟨indexBatch env st, true, true⟩
  | WorkerEvent.notify force =>
      let full := decide (flushCount ≤ st.docQueue.length)
      if force || full then ⟨indexBatch env st, true, false⟩ else ⟨st, false, false⟩

/-- The flush threshold configured by `newBleve`: `flushCount: 100`. -/
def bleveFlushCount : Nat := 100

/-- The message carried by `errors.Errorf("indexer closing")`, sent to every
flusher still queued when `writeAheadLog` drains the queue on shutdown. -/
def indexerClosingMsg : String := "indexer closing"

/-- Model of `bufferedEngine.writeAheadLog` (shutdown path, write errors aside): each
remaining `DocumentComment` is serialized as `walRecord` and concatenated;
each remaining `idxFlusher` is resolved with the "indexer closing" error and
not written.  Returns the file contents and the flusher resolutions. -/
def writeAheadLog : List QueueEntry → List Char × List (Nat × String)
  | [] => ([], [])
  | QueueEntry.doc d :: rest =>
      let r := writeAheadLog rest
      (walRecord d ++ r.1, r.2)
  | QueueEntry.flusher fid :: rest =>
      let r := writeAheadLog rest
      (r.1, (fid, indexerClosingMsg) :: r.2)

/-- The message of Go's `*json.InvalidUnmarshalError` for this target type. -/
def invalidUnmarshalMsg : String := "json: Unmarshal(nil *search.DocumentComment)"

/-- The message of `errors.Errorf("reading ahead log interrupted")`. -/
def interruptedMsg : String := "reading ahead log interrupted"

/-- Model of `json.Unmarshal(data, doc)` exactly as `readAheadLog` calls it: `doc` is
declared as `var doc *DocumentComment` and is therefore a nil pointer, and
Go's `json.Unmarshal` returns an `InvalidUnmarshalError` for every nil
pointer target, before looking at `data` at all.  This call can never
produce a document. -/
def unmarshalIntoNilDoc (_data : List Char) : Except String DocumentComment :=
  Except.error invalidUnmarshalMsg

/-- Model of `reader.ReadBytes(0x0)`: split the stream at the first sentinel byte,
returning the bytes before it and the bytes after it; `none` models hitting
EOF before any sentinel (in which case `readAheadLog` discards the partial
data and treats the log as finished). -/
def splitAtSentinel : List Char → Option (List Char × List Char)
  | [] => none
  | c :: cs =>
      if c = sentinel then some ([], cs)
      else
        match splitAtSentinel cs with
        | none => none
        | some (a, b) => some (c :: a, b)

/-- Model of `bufferedEngine.readAheadLog`: between records, honor cancellation; read
one sentinel-terminated record; strip the sentinel; `json.Unmarshal` it into
a (nil) `*DocumentComment`; on success feed the document to
`s.IndexDocument` (which, on a running engine, appends it to the queue and
cannot fail) and continue; on any error stop and return it.  EOF before a
sentinel terminates cleanly. -/
def readAheadLog (cancelled : Bool) (st : EngineState) (bytes : List Char) :
    EngineState × Except String Unit :=
  if cancelled then (st, Except.error interruptedMsg)
  else
    match h : splitAtSentinel bytes with
    | none => (st, Except.ok ())
    | some (data, rest) =>
      match unmarshalIntoNilDoc data with
      | Except.error e => (st, Except.error e)
      | Except.ok doc =>
          readAheadLog cancelled
            { st with docQueue := st.docQueue ++ [QueueEntry.doc doc] } rest
  termination_by bytes.length
  decreasing_by
    have key : ∀ (bs a b : List Char), splitAtSentinel bs = some (a, b) →
        b.length < bs.length := by
      intro bs
      induction bs with
      | nil => intro a b hx; simp [splitAtSentinel] at hx
      | cons c cs ih =>
        intro a b hx
        by_cases hc : c = sentinel
        · simp [splitAtSentinel, hc] at hx
          obtain ⟨-, hb⟩ := hx
          subst hb
          simp
        · simp only [splitAtSentinel, hc, if_false] at hx
          cases hs : splitAtSentinel cs with
          | none => rw [hs] at hx; simp at hx
          | some p =>
            obtain ⟨a', b'⟩ := p
            rw [hs] at hx
            have h' := Option.some.inj hx
            have hb : b' = b := congrArg Prod.snd h'
            have hlt := ih a' b' hs
            rw [hb] at hlt
            simp only [List.length_cons]
            omega
    exact key bytes data rest h

/-- Result of `bufferedEngine.Init`: the WAL file afterwards (`none` if
absent/removed), the engine state, the returned bool (`true` when the engine
was initialized before, i.e. a WAL file existed), and the returned error. -/
structure InitOutcome where
  wal : Option (List Char)
  state : EngineState
  firstStart : Bool
  result : Except String Unit

/-- Model of `bufferedEngine.Init`: if the WAL file does not exist, report a cold
start.  Otherwise read it with `readAheadLog`; only when reading succeeded
is `os.Remove` of the file deferred (so an error leaves the file in place),
and the read error is returned as is. -/
def Init (cancelled : Bool) (wal : Option (List Char)) (st : EngineState) :
    InitOutcome :=
  match wal with
  | none => ⟨none, st, false, Except.ok ()⟩
  | some bytes =>
    match readAheadLog cancelled st bytes with
    | (st', Except.ok _) => ⟨none, st', true, Except.ok ()⟩
    | (st', Except.error e) => ⟨some bytes, st', true, Except.error e⟩

/-! ## Sort-field validation (buffered_engine.go) and its use in Search -/

/-- Model of `validateSortField(sortBy, possible...)`: the empty string is rejected;
one leading `-` or `+` is stripped; the remainder must equal one of the
allowed field names. -/
def validateSortField (sortBy : List Char) (possible : List (List Char)) : Bool :=
  match sortBy with
  | [] => false
  | c :: rest =>
      let t := if c == '-' || c == '+' then rest else c :: rest
      possible.any (fun e => t == e)

/-- The sort fields handed to the back end by `bleveIndexer.Search`:
`bReq.SortBy([]string\x7breq.SortBy\x7d)` when `validateSortField(req.SortBy,
"timestamp")` holds, otherwise the request keeps bleve's default ordering. -/
def searchSortApplied (sortBy : List Char) : Option (List Char) :=
  if validateSortField sortBy ["timestamp".data] then some sortBy else none

/-- Whether `bleveIndexer.Search` logs the "unknown sort field" warning:
only when validation failed and the field is non-empty. -/
def searchSortWarned (sortBy : List Char) : Bool :=
  if validateSortField sortBy ["timestamp".data] then false else !sortBy.isEmpty

/-! ## Analyzer selection (bleve back end) -/

/-- Model of `analyzerMapping`: the names accepted by `newBleve`, mapped to the bleve
analyzer identifiers (`bleveStandard.Name`, `bleveEn.AnalyzerName`,
`bleveRu.AnalyzerName` — library constants, not under src/). -/
def analyzerMapping : List (String × String) :=
  [("standard", "standard"), ("english", "en"), ("russian", "ru")]

/-- The analyzer-validation step at the top of `newBleve`: an analyzer name
outside `analyzerMapping` fails construction with an error carrying the name
and the list of available analyzers (the Go error interpolates that list;
its order is unspecified because it comes from iterating a Go map, so the
error is modelled as carrying the collection itself).  A known name passes
this check and construction proceeds to the index directory. -/
def newBleveAnalyzerCheck (analyzer : String) : Except (String × List String) Unit :=
  match analyzerMapping.lookup analyzer with
  | some _ => Except.ok ()
  | none => Except.error (analyzer, analyzerMapping.map Prod.fst)

/-! ## Remote (elastic) back end -/

/-- Model of `strings.Split(s, ":")` for a one-character separator: the pieces of `s`
around every occurrence of `sep`; the empty string yields one empty piece. -/
def goSplit (sep : Char) : List Char → List (List Char)
  | [] => [[]]
  | c :: cs =>
      match goSplit sep cs with
      | [] => [[]]
      | p :: ps => if c = sep then [] :: p :: ps else (c :: p) :: ps

/-- The relevant fields of `elasticsearch.Config` that `parseSecret` and
`newElasticService` populate. -/
structure ElasticConfig where
  Addresses : List (List Char)
  Username : List Char
  Password : List Char
  APIKey : List Char
  deriving DecidableEq, Repr

/-- The message of the malformed-basic-secret error (the source misspells
"should" as "sould"). -/
def basicFormatMsg : String :=
  "secret for basic auth sould have format \x27basic:user:pass\x27"

/-- The message of the unrecognized-prefix error: `%v` of the Go slice
`[]string\x7b"basic:", "token:"\x7d`. -/
def prefixListMsg : String :=
  "secret should starts with one of prefixes: [basic: token:]"

/-- The literal `"basic:"`. -/
def basicColon : List Char := "basic:".data

/-- The literal `"token:"`. -/
def tokenColon : List Char := "token:".data

/-- Model of `parseSecret`: a secret starting with `basic:` must split (after the
prefix is trimmed) into exactly two colon-separated fields, which become
username and password; a secret starting with `token:` sets the API key to
the remainder; anything else fails with the prefix-enumerating error. -/
def parseSecret (secret : List Char) (cfg : ElasticConfig) :
    Except String ElasticConfig :=
  if basicColon.isPrefixOf secret then
    match goSplit ':' (secret.drop basicColon.length) with
    | [u, p] => Except.ok { cfg with Username := u, Password := p }
    | _ => Except.error basicFormatMsg
  else if tokenColon.isPrefixOf secret then
    Except.ok { cfg with APIKey := secret.drop tokenColon.length }
  else
    Except.error prefixListMsg

/-- An item queued into an `esutil.BulkIndexer`: its action (`"index"` or
`"delete"`), document ID, and body (the JSON-encoded document, absent for
deletes). -/
structure BulkItem where
  Action : String
  DocumentID : String
  Body : Option (List Char)
  deriving DecidableEq, Repr

/-- The observable state of the `elastic` service: one bulk indexer per
configured site (`map[string]esutil.BulkIndexer`, modelled as an
association list), each holding the items queued so far. -/
structure ElasticState where
  bulkIndexers : List (String × List BulkItem)
  deriving DecidableEq, Repr

/-- The parameters `newElasticService` consumes. -/
structure SearcherParams where
  Endpoint : List Char
  Secret : List Char
  Sites : List String

/-- The message of `errors.Errorf("elasticsearch parameters are not set")`. -/
def paramsNotSetMsg : String := "elasticsearch parameters are not set"

/-- Model of `newElasticService`: both endpoint and secret must be non-empty; the
secret is parsed into the client config; one (initially empty) bulk indexer
is created per configured site.  (`elasticsearch.NewClient` and
`esutil.NewBulkIndexer` failures depend on the environment and are modelled
as succeeding.) -/
def newElasticService (params : SearcherParams) :
    Except String (ElasticConfig × ElasticState) :=
  if params.Endpoint.isEmpty || params.Secret.isEmpty then
    Except.error paramsNotSetMsg
  else
    match parseSecret params.Secret ⟨[params.Endpoint], [], [], []⟩ with
    | Except.error e => Except.error e
    | Except.ok cfg => Except.ok (cfg, ⟨params.Sites.map (fun s => (s, []))⟩)

/-- Modelled from the spec: `store.Locator` (site ID and post URL), defined
outside src/. -/
structure Locator where
  SiteID : String
  URL : String
  deriving DecidableEq, Repr

/-- Modelled from the spec: the fields of the canonical `store.Comment` that
the search subsystem projects (§4.1); the comment body is taken after HTML
stripping, and the user name is flattened into one field. -/
structure Comment where
  ID : String
  Locator : Locator
  Text : String
  User : String
  Timestamp : String
  deriving DecidableEq, Repr

/-- Modelled from the spec: `DocFromComment`, the pure projection from a
canonical comment to the indexable document (§4.1); defined outside src/. -/
def DocFromComment (c : Comment) : DocumentComment :=
  ⟨c.ID, c.Locator.URL, c.Text, c.User, c.Timestamp⟩

/-- Model of `bi.Add(...)` on the bulk indexer of `siteID`: append the item to that
indexer's queue, leaving every other site untouched. -/
def addItem (st : ElasticState) (siteID : String) (item : BulkItem) : ElasticState :=
  ⟨st.bulkIndexers.map (fun p => if p.1 = siteID then (p.1, p.2 ++ [item]) else p)⟩

/-- The message of `errors.Errorf("index for site %s does not found", siteID)`. -/
def siteNotFoundMsg (siteID : String) : String :=
  "index for site " ++ siteID ++ " does not found"

/-- The wrapping text of `errors.Wrap(err, "failed to add document to batch")`;
`pkg/errors` renders the wrapped error as `wrap-text ++ ": " ++ cause`. -/
def failedAddMsg : String := "failed to add document to batch"

/-- Model of `elastic.IndexDocument`: project and JSON-encode the document, then look
up the bulk indexer for the comment's site; if present, enqueue an `"index"`
item (per-item failures are reported through a logging callback only); if
absent, fail with the wrapped site-not-found error and touch nothing. -/
def elasticIndexDocument (st : ElasticState) (commentID : String) (c : Comment) :
    ElasticState × Except String Unit :=
  let doc := DocFromComment c
  let siteID := c.Locator.SiteID
  match st.bulkIndexers.lookup siteID with
  | some _ =>
      (addItem st siteID ⟨"index", doc.ID, some (jsonMarshal doc)⟩, Except.ok ())
  | none =>
      (st, Except.error (failedAddMsg ++ ": " ++ siteNotFoundMsg siteID))

/-- Model of `elastic.Delete`: look up the bulk indexer for the site; if present,
enqueue a `"delete"` item; if absent, return the (unwrapped) site-not-found
error and touch nothing. -/
def elasticDelete (st : ElasticState) (siteID commentID : String) :
    ElasticState × Except String Unit :=
  match st.bulkIndexers.lookup siteID with
  | some _ => (addItem st siteID ⟨"delete", commentID, none⟩, Except.ok ())
  | none => (st, Except.error (siteNotFoundMsg siteID))

/-! ## Local (bleve) search-result conversion -/

/-- The stored-field constant `urlFieldName` of the bleve adapter. -/
def urlFieldName : String := "url"

/-- The text-field constant `textFieldName` of the bleve adapter. -/
def textFieldName : String := "text"

/-- A value of a stored hit field (`r.Fields` maps field names to
`interface\x7b\x7d`); only the string type assertion matters here. -/
inductive BleveFieldValue where
  | str (s : String)
  | other
  deriving DecidableEq, Repr

/-- One highlight location (`search.Location`): start and end byte offsets. -/
structure BleveLocation where
  Start : Nat
  End : Nat
  deriving DecidableEq, Repr

/-- One hit of a bleve search result: document ID, stored fields, and the
per-field, per-term highlight locations (`FieldTermLocationMap`; the two Go
maps are modelled as association lists, their iteration order being
unspecified). -/
structure BleveHit where
  ID : String
  Fields : List (String × BleveFieldValue)
  Locations : List (String × List (String × List BleveLocation))
  deriving DecidableEq, Repr

/-- The part of `*bleve.SearchResult` that `convertBleveSerp` reads. -/
structure BleveSearchResult where
  Total : Nat
  Hits : List BleveHit
  deriving DecidableEq, Repr

/-- The `r.Fields[urlFieldName].(string)` lookup-and-assertion: `some` only
when the field is present and holds a string. -/
def lookupURLString (fields : List (String × BleveFieldValue)) : Option String :=
  match fields.lookup urlFieldName with
  | some (BleveFieldValue.str s) => some s
  | _ => none

/-- The highlight conversion: all locations of all terms of the `text`
field, flattened into `TokenMatch` offsets. -/
def collectMatches
    (locations : List (String × List (String × List BleveLocation))) :
    List TokenMatch :=
  match locations.lookup textFieldName with
  | none => []
  | some termMap =>
      (termMap.map (fun t => t.2.map (fun l => TokenMatch.mk l.Start l.End))).flatten

/-- The hit-conversion loop of `convertBleveSerp`: a hit without a string
`url` field makes the whole conversion panic (`none`); otherwise each hit
becomes a `ResultDoc`. -/
def convertHits : List BleveHit → Option (List ResultDoc)
  | [] => some []
  | r :: rest =>
      match lookupURLString r.Fields with
      | none => none
      | some url =>
          (convertHits rest).map (fun ds => ⟨r.ID, url, collectMatches r.Locations⟩ :: ds)

/-- Model of `convertBleveSerp`: convert every hit (panicking — `none` — if any hit
lacks a string `url` stored field) and carry over the total. -/
def convertBleveSerp (res : BleveSearchResult) : Option ResultPage :=
  (convertHits res.Hits).map (fun ds => ⟨res.Total, ds⟩)

/-! ## Lemmas about the write-ahead log reader -/

theorem splitAtSentinel_isSome_of_mem :
    ∀ (bytes : List Char), sentinel ∈ bytes →
      ∃ a b, splitAtSentinel bytes = some (a, b) := by
  intro bytes
  induction bytes with
  | nil => intro h; simp at h
  | cons c cs ih =>
    intro h
    by_cases hc : c = sentinel
    · exact ⟨[], cs, by simp [splitAtSentinel, hc]⟩
    · have hmem : sentinel ∈ cs := by
        rcases List.mem_cons.mp h with h1 | h2
        · exact absurd h1.symm hc
        · exact h2
      obtain ⟨a, b, hs⟩ := ih hmem
      exact ⟨c :: a, b, by simp [splitAtSentinel, hc, hs]⟩

theorem readAheadLog_error_of_sentinel :
    ∀ (bytes : List Char) (st : EngineState), sentinel ∈ bytes →
      readAheadLog false st bytes = (st, Except.error invalidUnmarshalMsg) := by
  intro bytes st h
  obtain ⟨a, b, hs⟩ := splitAtSentinel_isSome_of_mem bytes h
  rw [readAheadLog]
  simp only [unmarshalIntoNilDoc, Bool.false_eq_true, if_false]
  split
  · rename_i heq
    rw [heq] at hs
    simp at hs
  · rfl

theorem sentinel_mem_walRecord (d : DocumentComment) : sentinel ∈ walRecord d := by
  simp [walRecord]

/-- C3: the claim states that a `DocumentComment` serialized in the WAL
format (encoded record plus `0x00` sentinel, as written by `writeAheadLog`)
deserializes back to the original document via `readAheadLog`.  In the code
this is false for every document: `readAheadLog` unmarshals into a nil
`*DocumentComment`, which Go rejects with an `InvalidUnmarshalError` before
reading the data, so deserialization always errors and never yields a
document. -/
theorem wal_record_never_deserializes :
    ∀ (d : DocumentComment) (st : EngineState),
      readAheadLog false st (walRecord d) = (st, Except.error invalidUnmarshalMsg) := by
  intro d st
  exact readAheadLog_error_of_sentinel _ _ (sentinel_mem_walRecord d)

/-- C2: the claim states that `Init` reads a present WAL to completion,
indexes its records and removes the file before returning success.  In the
code every WAL holding at least one record makes `Init` fail (the
nil-pointer unmarshal above), index nothing, and leave the file in place:
evaluated here on the WAL containing exactly one record, written by the
code's own serializer. -/
theorem init_errors_and_keeps_wal_on_records :
    ∀ (d : DocumentComment) (st : EngineState),
      Init false (some (walRecord d)) st =
        ⟨some (walRecord d), st, true, Except.error invalidUnmarshalMsg⟩ := by
  intro d st
  have h := readAheadLog_error_of_sentinel (walRecord d) st (sentinel_mem_walRecord d)
  simp [Init, h]

/-! ## Lemmas about `indexBatch` and the flush barrier -/

theorem batchDocs_mem (env : BackendEnv) :
    ∀ (q : List QueueEntry) (d : DocumentComment),
      env.docErr d.ID = false → QueueEntry.doc d ∈ q →
        (d.ID, d) ∈ batchDocs env q := by
  intro q
  induction q with
  | nil => intro d _ h; simp at h
  | cons e rest ih =>
    intro d hde h
    cases e with
    | doc d' =>
      rcases List.mem_cons.mp h with h1 | h2
      · have hd' : d = d' := QueueEntry.doc.inj h1
        subst hd'
        simp [batchDocs, hde]
      · have hr := ih d hde h2
        cases hdd : env.docErr d'.ID with
        | true => simpa [batchDocs, hdd] using hr
        | false =>
          have hstep : batchDocs env (QueueEntry.doc d' :: rest)
              = (d'.ID, d') :: batchDocs env rest := by
            simp [batchDocs, hdd]
          rw [hstep]
          exact List.mem_cons_of_mem _ hr
    | flusher fid =>
      have h2 : QueueEntry.doc d ∈ rest := by
        rcases List.mem_cons.mp h with h1 | h2
        · cases h1
        · exact h2
      simpa [batchDocs] using ih d hde h2

theorem flusherIDs_append :
    ∀ (a b : List QueueEntry), flusherIDs (a ++ b) = flusherIDs a ++ flusherIDs b := by
  intro a b
  induction a with
  | nil => simp [flusherIDs]
  | cons e rest ih =>
    cases e with
    | doc d => simp [flusherIDs, ih]
    | flusher fid => simp [flusherIDs, ih]

theorem lookup_upsert_self :
    ∀ (m : List (String × DocumentComment)) (k : String) (d : DocumentComment),
      (upsert m k d).lookup k = some d := by
  intro m
  induction m with
  | nil => intro k d; simp [upsert, List.lookup]
  | cons p rest ih =>
    intro k d
    obtain ⟨k', d'⟩ := p
    by_cases h : k' = k
    · simp [upsert, h, List.lookup]
    · have hkk : (k == k') = false := by
        simp
        exact fun hc => h hc.symm
      simp [upsert, h, List.lookup, hkk, ih]

theorem lookup_upsert_other :
    ∀ (m : List (String × DocumentComment)) (k : String) (d : DocumentComment)
      (a : String), a ≠ k → (upsert m k d).lookup a = m.lookup a := by
  intro m
  induction m with
  | nil =>
    intro k d a ha
    have hak : (a == k) = false := by
      simp
      exact ha
    simp [upsert, List.lookup, hak]
  | cons p rest ih =>
    intro k d a ha
    obtain ⟨k', d'⟩ := p
    by_cases h : k' = k
    · subst h
      have hak : (a == k') = false := by
        simp
        exact ha
      simp [upsert, List.lookup, hak]
    · simp [upsert, h, List.lookup, ih k d a ha]

theorem lookup_upsert_isSome :
    ∀ (m : List (String × DocumentComment)) (k : String) (d : DocumentComment)
      (a : String), (m.lookup a).isSome = true →
        ((upsert m k d).lookup a).isSome = true := by
  intro m k d a h
  by_cases hak : a = k
  · subst hak
    rw [lookup_upsert_self]
    rfl
  · rw [lookup_upsert_other m k d a hak]
    exact h

theorem lookup_applyBatch_isSome_of_isSome :
    ∀ (batch : List (String × DocumentComment)) (m : List (String × DocumentComment))
      (a : String), (m.lookup a).isSome = true →
        ((applyBatch m batch).lookup a).isSome = true := by
  intro batch
  induction batch with
  | nil => intro m a h; simpa [applyBatch] using h
  | cons p rest ih =>
    intro m a h
    have hstep : ((upsert m p.1 p.2).lookup a).isSome = true :=
      lookup_upsert_isSome m p.1 p.2 a h
    simpa [applyBatch, List.foldl_cons] using ih (upsert m p.1 p.2) a hstep

theorem lookup_applyBatch_isSome_of_mem :
    ∀ (batch : List (String × DocumentComment)) (m : List (String × DocumentComment))
      (k : String) (d : DocumentComment), (k, d) ∈ batch →
        ((applyBatch m batch).lookup k).isSome = true := by
  intro batch
  induction batch with
  | nil => intro m k d h; simp at h
  | cons p rest ih =>
    intro m k d h
    rcases List.mem_cons.mp h with h1 | h2
    · have hk : p.1 = k := (congrArg Prod.fst h1).symm
      have hd : p.2 = d := (congrArg Prod.snd h1).symm
      have hbase : ((upsert m p.1 p.2).lookup k).isSome = true := by
        rw [hk, hd, lookup_upsert_self]
        rfl
      simpa [applyBatch, List.foldl_cons] using
        lookup_applyBatch_isSome_of_isSome rest (upsert m p.1 p.2) k hbase
    · simpa [applyBatch, List.foldl_cons] using ih (upsert m p.1 p.2) k d h2

/-- C1 counterexample: one document is queued, then `Flush` runs while the
back end's `Batch` commit fails.  The flusher is still resolved with `nil`
(the deferred send in `indexBatch` sends the literal `nil` whatever the
commit outcome), so `Flush` returns nil although the document was never
committed — refuting the claim that a nil `Flush` implies every earlier
document is durably committed. -/
theorem flush_returns_nil_on_failed_commit :
    (Flush ⟨true, fun _ => false⟩
        ⟨[QueueEntry.doc ⟨"c1", "http://example.com/p1", "hello world", "alice", "t1"⟩],
          [], []⟩ 0).flusherSent = [(0, none)]
    ∧ ((Flush ⟨true, fun _ => false⟩
        ⟨[QueueEntry.doc ⟨"c1", "http://example.com/p1", "hello world", "alice", "t1"⟩],
          [], []⟩ 0).committed).lookup ("c1") = none := by
  exact ⟨rfl, rfl⟩

/-- C1 (amended): when the back-end `Batch` commit succeeds and the
per-document `batch.Index` calls succeed, the flush barrier does hold: the
flusher resolves with nil, every document queued strictly before the flush
sentinel is in the committed batch, the whole batch is applied to the back
end, and the document is afterwards present in the committed index. -/
theorem flush_barrier_when_commit_succeeds
    (env : BackendEnv) (st : EngineState) (fid : Nat) (d : DocumentComment)
    (hB : env.batchErr = false) (hd : env.docErr d.ID = false)
    (hmem : QueueEntry.doc d ∈ st.docQueue) :
    (fid, (none : Option String)) ∈ (Flush env st fid).flusherSent
    ∧ (d.ID, d) ∈ batchDocs env (st.docQueue ++ [QueueEntry.flusher fid])
    ∧ (Flush env st fid).committed
        = applyBatch st.committed (batchDocs env (st.docQueue ++ [QueueEntry.flusher fid]))
    ∧ (((Flush env st fid).committed).lookup d.ID).isSome = true := by
  have hne : (st.docQueue ++ [QueueEntry.flusher fid]).isEmpty = false := by
    simp
  have hbd : (d.ID, d) ∈ batchDocs env (st.docQueue ++ [QueueEntry.flusher fid]) :=
    batchDocs_mem env _ d hd (List.mem_append_left _ hmem)
  refine ⟨?_, hbd, ?_, ?_⟩
  · simp only [Flush, indexBatch, hne, Bool.false_eq_true, if_false]
    refine List.mem_append_right _ ?_
    rw [flusherIDs_append]
    simp [flusherIDs]
  · simp [Flush, indexBatch, hne, hB]
  · have hsome := lookup_applyBatch_isSome_of_mem _ st.committed d.ID d hbd
    simp only [Flush, indexBatch, hne, Bool.false_eq_true, if_false, hB]
    exact hsome

/-- Witness for the amended flush barrier at a concrete input. -/
theorem flush_barrier_when_commit_succeeds_witness :
    (0, (none : Option String)) ∈
        (Flush ⟨false, fun _ => false⟩
          ⟨[QueueEntry.doc ⟨"c2", "http://example.com/p2", "txt", "bob", "t2"⟩],
            [], []⟩ 0).flusherSent
    ∧ (((Flush ⟨false, fun _ => false⟩
          ⟨[QueueEntry.doc ⟨"c2", "http://example.com/p2", "txt", "bob", "t2"⟩],
            [], []⟩ 0).committed).lookup ("c2")).isSome = true := by
  have h := flush_barrier_when_commit_succeeds ⟨false, fun _ => false⟩
      ⟨[QueueEntry.doc ⟨"c2", "http://example.com/p2", "txt", "bob", "t2"⟩], [], []⟩
      0 ⟨"c2", "http://example.com/p2", "txt", "bob", "t2"⟩
      rfl rfl (List.mem_singleton.mpr rfl)
  exact ⟨h.1, h.2.2.2⟩

/-- C6: at every worker iteration with the `flushCount` configured by
`newBleve` (100), a notifier event triggers `indexBatch` exactly when it
carries `force = true` or the queue already holds at least 100 entries; a
dropped event leaves the state untouched; a timer tick always runs
`indexBatch` and resets the timer. -/
theorem worker_dispatch_spec :
    ∀ (env : BackendEnv) (st : EngineState) (f : Bool),
      ((workerStep env bleveFlushCount (WorkerEvent.notify f) st).ranBatch = true ↔
          (f = true ∨ bleveFlushCount ≤ st.docQueue.length))
      ∧ ((workerStep env bleveFlushCount (WorkerEvent.notify f) st).ranBatch = true →
          (workerStep env bleveFlushCount (WorkerEvent.notify f) st).state
            = indexBatch env st)
      ∧ ((workerStep env bleveFlushCount (WorkerEvent.notify f) st).ranBatch = false →
          (workerStep env bleveFlushCount (WorkerEvent.notify f) st).state = st)
      ∧ (workerStep env bleveFlushCount WorkerEvent.tick st).ranBatch = true
      ∧ (workerStep env bleveFlushCount WorkerEvent.tick st).state = indexBatch env st
      ∧ (workerStep env bleveFlushCount WorkerEvent.tick st).timerReset = true := by
  intro env st f
  cases hf : (f || decide (bleveFlushCount ≤ st.docQueue.length)) with
  | false =>
    obtain ⟨hf1, hf2⟩ := Bool.or_eq_false_iff.mp hf
    have hlen : ¬ bleveFlushCount ≤ st.docQueue.length := of_decide_eq_false hf2
    refine ⟨?_, ?_, ?_, rfl, rfl, rfl⟩
    · simp [workerStep, hf, hf1, hlen]
    · intro h
      rw [show (workerStep env bleveFlushCount (WorkerEvent.notify f) st).ranBatch
            = false by simp [workerStep, hf]] at h
      cases h
    · intro _
      simp [workerStep, hf]
  | true =>
    refine ⟨?_, ?_, ?_, rfl, rfl, rfl⟩
    · rcases Bool.or_eq_true_iff.mp hf with h1 | h2
      · simp [workerStep, hf, h1]
      · simp [workerStep, hf, of_decide_eq_true h2]
    · intro _
      simp [workerStep, hf]
    · intro h
      rw [show (workerStep env bleveFlushCount (WorkerEvent.notify f) st).ranBatch
            = true by simp [workerStep, hf]] at h
      cases h

/-- Witness for the worker-dispatch theorem at a concrete input (a dropped
non-force event on a short queue leaves the state untouched). -/
theorem worker_dispatch_spec_witness :
    (workerStep ⟨false, fun _ => false⟩ bleveFlushCount (WorkerEvent.notify false)
        ⟨[], [], []⟩).state = ⟨[], [], []⟩
    ∧ (workerStep ⟨false, fun _ => false⟩ bleveFlushCount WorkerEvent.tick
        ⟨[], [], []⟩).ranBatch = true := by
  have h := worker_dispatch_spec ⟨false, fun _ => false⟩ ⟨[], [], []⟩ false
  exact ⟨h.2.2.1 rfl, h.2.2.2.1⟩

/-- C7: on an open engine, `IndexDocument` appends the document to the back
of the queue, sends a non-force (`false`) notifier signal, returns nil, and
leaves the back end (committed index) and all flusher channels untouched —
it never talks to the back end.  On a closed engine the notifier send
panics (`none`); no error value is ever returned. -/
theorem indexDocument_appends_and_signals :
    ∀ (st : EngineState) (d : DocumentComment),
      IndexDocument true st d =
        some ({ st with docQueue := st.docQueue ++ [QueueEntry.doc d] },
          false, Except.ok ())
      ∧ (IndexDocument true st d).map (fun r => r.1.committed) = some st.committed
      ∧ (IndexDocument true st d).map (fun r => r.1.flusherSent) = some st.flusherSent
      ∧ IndexDocument false st d = none := by
  intro st d
  exact ⟨rfl, rfl, rfl, rfl⟩

/-! ## Lemmas about `goSplit` and secret parsing -/

theorem goSplit_ne_nil : ∀ (sep : Char) (l : List Char), goSplit sep l ≠ [] := by
  intro sep l
  induction l with
  | nil => simp [goSplit]
  | cons c cs ih =>
    simp only [goSplit]
    cases hs : goSplit sep cs with
    | nil => simp
    | cons p ps => by_cases hc : c = sep <;> simp [hc]

theorem goSplit_no_sep :
    ∀ (sep : Char) (p : List Char), sep ∉ p → goSplit sep p = [p] := by
  intro sep p
  induction p with
  | nil => intro _; rfl
  | cons c cs ih =>
    intro h
    have h1 : ¬ (sep = c ∨ sep ∈ cs) := fun hx => h (List.mem_cons.mpr hx)
    push_neg at h1
    obtain ⟨hsc, hscs⟩ := h1
    have hcs : ¬ c = sep := fun hx => hsc hx.symm
    simp [goSplit, ih hscs, hcs]

theorem goSplit_append_sep :
    ∀ (sep : Char) (u rest : List Char), sep ∉ u →
      goSplit sep (u ++ sep :: rest) = u :: goSplit sep rest := by
  intro sep u
  induction u with
  | nil =>
    intro rest _
    simp only [List.nil_append, goSplit]
    cases hs : goSplit sep rest with
    | nil => exact absurd hs (goSplit_ne_nil sep rest)
    | cons p ps => simp
  | cons c cs ih =>
    intro rest h
    have h1 : ¬ (sep = c ∨ sep ∈ cs) := fun hx => h (List.mem_cons.mpr hx)
    push_neg at h1
    obtain ⟨hsc, hscs⟩ := h1
    have hcs : ¬ c = sep := fun hx => hsc hx.symm
    have ihr := ih rest hscs
    simp [goSplit, ihr, hcs]

theorem goSplit_two_fields (u p : List Char) (hu : ':' ∉ u) (hp : ':' ∉ p) :
    goSplit ':' (u ++ ':' :: p) = [u, p] := by
  rw [goSplit_append_sep ':' u p hu, goSplit_no_sep ':' p hp]

theorem isPrefixOf_append_self :
    ∀ (l t : List Char), l.isPrefixOf (l ++ t) = true := by
  intro l t
  induction l with
  | nil => simp [List.isPrefixOf]
  | cons c cs ih => simp [List.isPrefixOf, ih]

theorem basic_not_prefix_of_token (k : List Char) :
    basicColon.isPrefixOf (tokenColon ++ k) = false := by
  rfl

/-- C4 counterexample: the secret `"basic:a:b:c"`, whose remainder after the
`basic:` prefix strip consists of three colon-separated fields, is rejected
by `parseSecret` with the basic-format error — refuting the claim that a
basic secret with three colon-separated fields after the prefix strip
succeeds and sets credentials. -/
theorem parseSecret_rejects_three_field_basic :
    parseSecret ("basic:a:b:c".data) ⟨[], [], [], []⟩ = Except.error basicFormatMsg := by
  rfl

/-- C4 (amended): a `basic:` secret must split into exactly two
colon-separated fields after the prefix strip (so user and password may not
contain a colon); then it sets username and password.  A `token:` secret
sets the API key to the remainder.  Any secret with neither prefix fails
with the error enumerating `basic:` and `token:`. -/
theorem parseSecret_amended_spec
    (cfg : ElasticConfig) (u p k s : List Char)
    (hu : ':' ∉ u) (hp : ':' ∉ p)
    (hb : basicColon.isPrefixOf s = false) (ht : tokenColon.isPrefixOf s = false) :
    parseSecret (basicColon ++ u ++ ':' :: p) cfg
        = Except.ok { cfg with Username := u, Password := p }
    ∧ parseSecret (tokenColon ++ k) cfg = Except.ok { cfg with APIKey := k }
    ∧ parseSecret s cfg = Except.error prefixListMsg
    ∧ List.IsInfix basicColon prefixListMsg.data
    ∧ List.IsInfix tokenColon prefixListMsg.data := by
  refine ⟨?_, ?_, ?_, by decide, by decide⟩
  · rw [List.append_assoc]
    have hpre : basicColon.isPrefixOf (basicColon ++ (u ++ ':' :: p)) = true :=
      isPrefixOf_append_self _ _
    simp only [parseSecret, hpre, if_true, List.drop_left]
    rw [goSplit_two_fields u p hu hp]
  · have hb2 := basic_not_prefix_of_token k
    have ht2 : tokenColon.isPrefixOf (tokenColon ++ k) = true :=
      isPrefixOf_append_self _ _
    simp [parseSecret, hb2, ht2]
  · simp [parseSecret, hb, ht]

/-- Witness for the amended secret-parsing theorem at concrete inputs,
including the spec's own bad-secret scenario `"wrong:admin:pw"`. -/
theorem parseSecret_amended_spec_witness :
    parseSecret (basicColon ++ "me".data ++ ':' :: "pw".data) ⟨[], [], [], []⟩
        = Except.ok ⟨[], "me".data, "pw".data, []⟩
    ∧ parseSecret (tokenColon ++ "k1".data) ⟨[], [], [], []⟩
        = Except.ok ⟨[], [], [], "k1".data⟩
    ∧ parseSecret ("wrong:admin:pw".data) ⟨[], [], [], []⟩
        = Except.error prefixListMsg
    ∧ List.IsInfix basicColon prefixListMsg.data
    ∧ List.IsInfix tokenColon prefixListMsg.data := by
  have h := parseSecret_amended_spec ⟨[], [], [], []⟩ ("me".data) ("pw".data) ("k1".data)
      ("wrong:admin:pw".data) (by decide) (by decide) (by rfl) (by rfl)
  exact ⟨h.1, h.2.1, h.2.2.1, h.2.2.2.1, h.2.2.2.2⟩

/-- C5: the analyzer validation of `newBleve` accepts exactly the names
`standard`, `english`, `russian`; any other name fails construction with an
error listing the valid options. -/
theorem analyzer_validation_spec :
    ∀ a : String,
      newBleveAnalyzerCheck a =
        if a = "standard" ∨ a = "english" ∨ a = "russian" then Except.ok ()
        else Except.error (a, ["standard", "english", "russian"]) := by
  intro a
  by_cases h1 : a = "standard"
  · subst h1
    rw [if_pos (Or.inl rfl)]
    rfl
  · by_cases h2 : a = "english"
    · subst h2
      rw [if_pos (Or.inr (Or.inl rfl))]
      rfl
    · by_cases h3 : a = "russian"
      · subst h3
        rw [if_pos (Or.inr (Or.inr rfl))]
        rfl
      · rw [if_neg (by tauto)]
        have e1 : (a == "standard") = false := by
          simp
          exact h1
        have e2 : (a == "english") = false := by
          simp
          exact h2
        have e3 : (a == "russian") = false := by
          simp
          exact h3
        simp [newBleveAnalyzerCheck, analyzerMapping, List.lookup, e1, e2, e3]

/-- C8: on the remote back end, an operation addressed to a site with no
configured bulk indexer returns the "index for site X does not found" error
(wrapped with "failed to add document to batch" for `IndexDocument`) and
leaves the state — every bulk indexer — untouched. -/
theorem elastic_unknown_site_spec
    (st : ElasticState) (cid : String) (c : Comment)
    (h : st.bulkIndexers.lookup c.Locator.SiteID = none) :
    elasticIndexDocument st cid c
        = (st, Except.error (failedAddMsg ++ ": " ++ siteNotFoundMsg c.Locator.SiteID))
    ∧ elasticDelete st c.Locator.SiteID cid
        = (st, Except.error (siteNotFoundMsg c.Locator.SiteID)) := by
  constructor
  · simp [elasticIndexDocument, h]
  · simp [elasticDelete, h]

/-- Witness for the unknown-site theorem: one configured site `s1`, an
operation addressed to `s3`. -/
theorem elastic_unknown_site_spec_witness :
    elasticIndexDocument ⟨[("s1", [])]⟩ "id1"
        ⟨"id1", ⟨"s3", "http://example.com/a"⟩, "text", "carol", "t3"⟩
      = (⟨[("s1", [])]⟩, Except.error (failedAddMsg ++ ": " ++ siteNotFoundMsg ("s3")))
    ∧ elasticDelete ⟨[("s1", [])]⟩ "s3" "id1"
      = (⟨[("s1", [])]⟩, Except.error (siteNotFoundMsg ("s3"))) := by
  exact elastic_unknown_site_spec ⟨[("s1", [])]⟩ "id1"
      ⟨"id1", ⟨"s3", "http://example.com/a"⟩, "text", "carol", "t3"⟩ rfl

/-! ## Sort-field validation -/

theorem validateSortField_timestamp_iff :
    ∀ s : List Char,
      validateSortField s ["timestamp".data] = true ↔
        (s = "timestamp".data ∨ s = '+' :: "timestamp".data
          ∨ s = '-' :: "timestamp".data) := by
  intro s
  cases s with
  | nil =>
    constructor
    · intro h
      exact absurd h (by decide)
    · rintro (h | h | h) <;> exact absurd h (by decide)
  | cons c rest =>
    simp only [validateSortField, List.any_cons, List.any_nil, Bool.or_false, beq_iff_eq]
    by_cases h1 : (c == '-' || c == '+') = true
    · rw [if_pos h1]
      constructor
      · intro h
        rcases Bool.or_eq_true_iff.mp h1 with hc | hc
        · have hcv : c = '-' := eq_of_beq hc
          subst hcv
          exact Or.inr (Or.inr (by rw [h]))
        · have hcv : c = '+' := eq_of_beq hc
          subst hcv
          exact Or.inr (Or.inl (by rw [h]))
      · rintro (h | h | h)
        · injection h with hx hy
          rcases Bool.or_eq_true_iff.mp h1 with hc | hc
          · have hcv := eq_of_beq hc
            rw [hcv] at hx
            exact absurd hx (by decide)
          · have hcv := eq_of_beq hc
            rw [hcv] at hx
            exact absurd hx (by decide)
        · injection h with hx hy
        · injection h with hx hy
    · rw [if_neg h1]
      obtain ⟨hm, hp⟩ := Bool.or_eq_false_iff.mp ((Bool.not_eq_true _).mp h1)
      constructor
      · intro h
        exact Or.inl h
      · rintro (h | h | h)
        · exact h
        · injection h with hx hy
          rw [hx] at hp
          exact absurd hp (by decide)
        · injection h with hx hy
          rw [hx] at hm
          exact absurd hm (by decide)

/-- C9: `validateSortField(·, "timestamp")` accepts exactly `"timestamp"`,
`"+timestamp"` and `"-timestamp"` and rejects the empty string and all other
values; `bleveIndexer.Search` passes the sort field to the back end exactly
when it validates, keeps default ordering otherwise, and logs the
unknown-sort-field warning exactly for non-empty invalid values (the empty
string silently keeps default ordering). -/
theorem sortBy_validation_spec :
    ∀ s : List Char,
      (validateSortField s ["timestamp".data] = true ↔
          (s = "timestamp".data ∨ s = '+' :: "timestamp".data
            ∨ s = '-' :: "timestamp".data))
      ∧ (searchSortApplied s = some s ↔
          (s = "timestamp".data ∨ s = '+' :: "timestamp".data
            ∨ s = '-' :: "timestamp".data))
      ∧ (searchSortWarned s = true ↔
          (s ≠ [] ∧ ¬(s = "timestamp".data ∨ s = '+' :: "timestamp".data
            ∨ s = '-' :: "timestamp".data)))
      ∧ searchSortApplied [] = none ∧ searchSortWarned [] = false := by
  intro s
  have hiff := validateSortField_timestamp_iff s
  refine ⟨hiff, ?_, ?_, rfl, rfl⟩
  · constructor
    · intro hap
      by_cases hv : validateSortField s ["timestamp".data] = true
      · exact hiff.mp hv
      · exfalso
        simp [searchSortApplied, (Bool.not_eq_true _).mp hv] at hap
    · intro hmem
      simp [searchSortApplied, hiff.mpr hmem]
  · constructor
    · intro hw
      have hvf : validateSortField s ["timestamp".data] = false := by
        cases hv : validateSortField s ["timestamp".data] with
        | true => simp [searchSortWarned, hv] at hw
        | false => rfl
      refine ⟨?_, fun hmem => ?_⟩
      · intro hnil
        subst hnil
        simp [searchSortWarned, validateSortField] at hw
      · have hvt := hiff.mpr hmem
        rw [hvf] at hvt
        exact absurd hvt (by decide)
    · rintro ⟨hne, hnm⟩
      have hvf : validateSortField s ["timestamp".data] = false := by
        cases hv : validateSortField s ["timestamp".data] with
        | true => exact absurd (hiff.mp hv) hnm
        | false => rfl
      simp only [searchSortWarned, hvf, Bool.false_eq_true, if_false]
      cases s with
      | nil => exact absurd rfl hne
      | cons _ _ => rfl

/-- C10: converting a local (bleve) search result panics — modelled as
`none` — exactly when some returned hit lacks a string value for the stored
`url` field; so the conversion (and with it `Search` on the local back end)
is total exactly under the precondition that every hit carries the `url`
field as a string. -/
theorem convertBleveSerp_panics_iff_missing_url :
    ∀ res : BleveSearchResult,
      convertBleveSerp res = none ↔
        ∃ r ∈ res.Hits, lookupURLString r.Fields = none := by
  intro res
  unfold convertBleveSerp
  rw [Option.map_eq_none']
  generalize res.Hits = hits
  induction hits with
  | nil => simp [convertHits]
  | cons r rest ih =>
    cases hu : lookupURLString r.Fields with
    | none =>
      simp only [convertHits, hu]
      constructor
      · intro _
        exact ⟨r, List.mem_cons_self r rest, hu⟩
      · intro _
        trivial
    | some url =>
      simp only [convertHits, hu, Option.map_eq_none']
      rw [ih]
      constructor
      · rintro ⟨x, hx, hlx⟩
        exact ⟨x, List.mem_cons_of_mem r hx, hlx⟩
      · rintro ⟨x, hx, hlx⟩
        rcases List.mem_cons.mp hx with hx1 | hx2
        · subst hx1
          rw [hu] at hlx
          exact Option.noConfusion hlx
        · exact ⟨x, hx2, hlx⟩

end Search
